import Mathlib

/-!
Shallow embedding of the lo-fi composition engine
(`midi_generator.py`, `drum_generator.py`, `lofi_engine.py`) and proofs
about its event scheduling, music-theory model, humanization utilities,
progression selection and style-preset resolution.

Python integers are modelled as `Int` (or `Nat` where the source value is
manifestly non-negative), floats that only feed `random.uniform` bounds as
`ℚ`, and the process-wide random source as explicit function parameters
whose range constraints appear as hypotheses.
-/

namespace LofiCrafter

/-- Kind tag of a MIDI note event.  In the source these are the strings
`'on'` / `'off'` (melodic generators) or `'note_on'` / `'note_off'`
(drum generator). -/
inductive EKind where
  | off : EKind
  | on : EKind
deriving DecidableEq, BEq

/-- Python string comparison rank of the kind tag: `'off' < 'on'`
(second character `'f' < 'n'`). -/
def EKind.rank : EKind → Nat
  | .off => 0
  | .on => 1

/-- One element of the `events` list built by every generator:
the tuple `(absolute tick, kind, note, velocity)`. -/
structure Event where
  tick : Int
  kind : EKind
  note : Int
  vel : Int
deriving DecidableEq, BEq

/-- A sounding note: the generators always append the pair
`(onTick, 'on', pitch, vel)` followed by `(offTick, 'off', pitch, 0)`. -/
structure Note where
  pitch : Int
  onTick : Int
  offTick : Int
  vel : Int
deriving DecidableEq, BEq

/-- The inline `events.append(...)` pairs of every generator:
for each note, one on-event then one off-event for the same pitch. -/
def pairEvents (ns : List Note) : List Event :=
  ns.flatMap fun n => [⟨n.onTick, .on, n.pitch, n.vel⟩, ⟨n.offTick, .off, n.pitch, 0⟩]

/-- Python tuple comparison used by `events.sort()` in `midi_generator.py`:
lexicographic on `(tick, kind-string, note, velocity)`. -/
def pyLeB (a b : Event) : Bool :=
  a.tick < b.tick ||
    (a.tick == b.tick &&
      (a.kind.rank < b.kind.rank ||
        (a.kind.rank == b.kind.rank &&
          (a.note < b.note || (a.note == b.note && a.vel ≤ b.vel)))))

/-- The Python tuple order as a proposition. -/
def pyR (a b : Event) : Prop := pyLeB a b = true

instance : DecidableRel pyR := fun a b => instDecidableEqBool (pyLeB a b) true

theorem pyR_iff (a b : Event) : pyR a b ↔
    (a.tick < b.tick ∨
      (a.tick = b.tick ∧
        (a.kind.rank < b.kind.rank ∨
          (a.kind.rank = b.kind.rank ∧
            (a.note < b.note ∨ (a.note = b.note ∧ a.vel ≤ b.vel)))))) := by
  simp [pyR, pyLeB, Bool.or_eq_true, Bool.and_eq_true, decide_eq_true_eq, beq_iff_eq]

instance : IsTotal Event pyR :=
  ⟨fun a b => by
    rw [pyR_iff, pyR_iff]
    omega⟩

instance : IsTrans Event pyR :=
  ⟨fun a b c hab hbc => by
    rw [pyR_iff] at hab hbc ⊢
    omega⟩

/-- `events.sort()` of the melodic generators: a stable sort under the
full lexicographic tuple order (Timsort is stable; on a stable sort the
output is determined by the order, so insertion sort models it exactly). -/
def pySort (l : List Event) : List Event := List.insertionSort pyR l

/-- Comparison used by `all_events.sort(key=lambda x: x[0])` in
`drum_generator.py`: the absolute tick only. -/
def tickLE (a b : Event) : Prop := a.tick ≤ b.tick

instance : DecidableRel tickLE := fun a b => Int.decLe a.tick b.tick

instance : IsTotal Event tickLE := ⟨fun a b => le_total a.tick b.tick⟩

instance : IsTrans Event tickLE := ⟨fun _ _ _ hab hbc => le_trans hab hbc⟩

/-- The drum generator's sort: stable, keyed on the tick alone. -/
def drumSort (l : List Event) : List Event := List.insertionSort tickLE l

/-- Delta-time encoding loop shared by every track serializer:
`delta = tick - last_tick; last_tick = tick` with `last_tick = 0` at entry. -/
def deltaEncode : Int → List Int → List Int
  | _, [] => []
  | last, t :: ts => (t - last) :: deltaEncode t ts

/-- Decoding: running sum of the per-event deltas. -/
def deltaDecode : Int → List Int → List Int
  | _, [] => []
  | acc, d :: ds => (acc + d) :: deltaDecode (acc + d) ds

/-- A serialized MIDI message: delta time plus the event payload. -/
structure Msg where
  time : Int
  kind : EKind
  note : Int
  vel : Int
deriving DecidableEq, BEq

/-- The `for tick, type, note, vel in events:` serialization loop of every
generator, carrying `last_tick` (0 at entry). -/
def toMessages : Int → List Event → List Msg
  | _, [] => []
  | last, e :: es => ⟨e.tick - last, e.kind, e.note, e.vel⟩ :: toMessages e.tick es

/-! ## Music theory model (`LofiMidiGenerator`) -/

/-- The eight members of the `LofiStyle` enum. -/
inductive LofiStyle where
  | CHILLHOP
  | JAZZHOP
  | SLEEP
  | AMBIENT
  | SAD
  | NOSTALGIC
  | ORIENTAL
  | NORDESTE
deriving DecidableEq, BEq

/-- `LofiMidiGenerator.SCALES`. -/
def SCALES : List (String × List Int) :=
  [("minor", [0, 2, 3, 5, 7, 8, 10]),
   ("dorian", [0, 2, 3, 5, 7, 9, 10]),
   ("pentatonic_minor", [0, 3, 5, 7, 10]),
   ("lydian_b7", [0, 2, 4, 6, 7, 9, 10])]

/-- The key-name table of `LofiMidiGenerator._parse_key`. -/
def key_map : List (String × Nat) :=
  [("C", 0), ("C#", 1), ("Db", 1), ("D", 2), ("D#", 3), ("Eb", 3), ("E", 4),
   ("F", 5), ("F#", 6), ("Gb", 6), ("G", 7), ("G#", 8), ("Ab", 8), ("A", 9),
   ("A#", 10), ("Bb", 10), ("B", 11)]

/-- `str.upper()` on the ASCII key names: uppercase every character. -/
def py_upper (s : String) : String :=
  ⟨s.data.map Char.toUpper⟩

/-- `_parse_key`: `key_map.get(key.upper(), 9)`. -/
def parse_key (key : String) : Nat :=
  ((key_map.find? fun p => p.1 == py_upper key).map Prod.snd).getD 9

/-- The mode fallback in `LofiMidiGenerator.__init__`:
`mode if mode in self.SCALES else 'minor'`. -/
def resolve_mode (mode : String) : String :=
  if (SCALES.find? fun p => p.1 == mode).isSome then mode else "minor"

/-- `self.scale = self.SCALES[self.mode]` after the fallback. -/
def scale_for (mode : String) : List Int :=
  ((SCALES.find? fun p => p.1 == resolve_mode mode).map Prod.snd).getD []

/-- The immutable per-composition state of `LofiMidiGenerator` used by the
track generators: `self.key_root` and `self.scale`. -/
structure Gen where
  key_root : Int
  scale : List Int
deriving DecidableEq, BEq

/-- `LofiMidiGenerator._get_note`.  `degree - 1` is a Python floor
division/modulo on a non-negative int, which for `degree ≥ 1` coincides
with `Nat` division and modulo. -/
def get_note (g : Gen) (degree : Nat) (octave : Int) : Int :=
  g.key_root + g.scale.getD ((degree - 1) % g.scale.length) 0 +
    (octave + ((degree - 1) / g.scale.length : Nat)) * 12

/-- The formula of spec §4.1, stated in the spec's own shape:
`pitch = root + scale[(degree-1) mod len(scale)] + 12*(octave + floor((degree-1)/len(scale)))`. -/
def note_spec (g : Gen) (degree : Nat) (octave : Int) : Int :=
  g.key_root + g.scale.getD ((degree - 1) % g.scale.length) 0 +
    12 * (octave + ((degree - 1) / g.scale.length : Nat))

/-- `LofiMidiGenerator._humanize_velocity`: `max(30, min(110, base + r))`
where `r = random.randint(-variance, variance)` is passed explicitly. -/
def humanize_velocity (base r : Int) : Int :=
  max 30 (min 110 (base + r))

/-- `DrumGenerator._humanize_velocity`: `max(20, min(127, base + variation))`
with `variation = int(base * amount * random.uniform(-0.5, 1.0))` passed as
an explicit integer. -/
def humanize_velocity_drum (base variation : Int) : Int :=
  max 20 (min 127 (base + variation))

/-- `DrumGenerator._humanize_timing`: `max(0, base + variation)` with
`variation = int(base * amount * random.uniform(-1, 1))` passed explicitly. -/
def humanize_timing (base variation : Int) : Int :=
  max 0 (base + variation)

/-! ## Progression library -/

/-- `ChordQuality` interval sets. -/
def MINOR7 : List Int := [0, 3, 7, 10]

def MINOR9 : List Int := [0, 3, 7, 10, 14]

def MAJOR7 : List Int := [0, 4, 7, 11]

def DOMINANT7 : List Int := [0, 4, 7, 10]

def MINOR7B5 : List Int := [0, 3, 6, 10]

def SUS4 : List Int := [0, 5, 7]

/-- A progression: the (scale degree, chord-quality interval list) pairs. -/
abbrev Progression := List (Nat × List Int)

/-- `LofiMidiGenerator.MELANCHOLIC_PROGRESSIONS`. -/
def MELANCHOLIC_PROGRESSIONS : List Progression :=
  [[(1, MINOR9), (4, MINOR7), (7, DOMINANT7), (3, MAJOR7)],
   [(1, MINOR7), (6, MAJOR7), (2, MINOR7B5), (5, DOMINANT7)],
   [(6, MAJOR7), (5, DOMINANT7), (1, MINOR9), (1, MINOR7)],
   [(1, MINOR7), (4, MINOR9), (1, MINOR7), (4, MINOR7)]]

/-- `LofiMidiGenerator.ORIENTAL_PROGRESSIONS`. -/
def ORIENTAL_PROGRESSIONS : List Progression :=
  [[(1, MINOR7), (4, SUS4), (1, MINOR7), (7, MINOR7)],
   [(1, MINOR7), (2, MINOR7), (1, MINOR7), (7, MINOR7)]]

/-- `LofiMidiGenerator.NORDESTE_PROGRESSIONS`. -/
def NORDESTE_PROGRESSIONS : List Progression :=
  [[(1, DOMINANT7), (4, MAJOR7), (1, DOMINANT7), (5, DOMINANT7)],
   [(1, DOMINANT7), (7, MAJOR7), (6, MAJOR7), (5, DOMINANT7)]]

/-- The mode dispatch at the top of `LofiMidiGenerator.generate`;
`choice` models `random.choice` on the matched catalog group. -/
def select_progression (mode : String) (choice : List Progression → Progression) :
    Progression :=
  if mode = "pentatonic_minor" then choice ORIENTAL_PROGRESSIONS
  else if mode = "lydian_b7" then choice NORDESTE_PROGRESSIONS
  else choice MELANCHOLIC_PROGRESSIONS

/-! ## Swing (`DrumGenerator`) -/

/-- `DrumGenerator._apply_swing`.  `swing` is `self.swing_amount`
(a Python float whose value comes from `random.uniform` bounds, modelled
as a rational); `int(...)` truncates, which on the non-negative argument
is the floor. -/
def apply_swing (swing : ℚ) (position : Nat) (tps : Nat) : Int :=
  if position % 2 = 1 ∧ 1 / 2 < swing then ⌊(tps : ℚ) * (swing - 1 / 2) * 2⌋
  else 0

/-- `DrumGenerator._get_swing_amount`; `uniform a b` models
`random.uniform(a, b)`. -/
def get_swing_amount (style : LofiStyle) (uniform : ℚ → ℚ → ℚ) : ℚ :=
  if style = .CHILLHOP ∨ style = .JAZZHOP then uniform (11 / 20) (67 / 100)
  else if style = .SLEEP ∨ style = .AMBIENT then 1 / 2
  else uniform (13 / 25) (29 / 50)

/-! ## Melodic track generators (`LofiMidiGenerator`)

Each generator is modelled by the list of sounding notes it constructs;
the `events` list it then builds is `pairEvents` of that list, exactly
matching the paired `events.append` calls in the source.  Beat positions
that the source writes as float multiples of `ticks_per_beat` are carried
in half-beat units (`hb * tpb / 2`), which agrees with the source's
`int(...)` for the even `ticks_per_beat = 480` used throughout the
repository.  Random draws are explicit parameters indexed by measure and
position. -/

/-- `generate_harmony_track` lines 88–98: one chord per measure at octave 3,
on-time jittered by `_humanize_time(40)` (`jt`), off-time anchored 60 ticks
before the measure end, velocity `_humanize_velocity(45, 10)` (`jv`). -/
def harmonyNotes (g : Gen) (prog : Progression) (measures tpb : Nat)
    (jt jv : Nat → Nat → Int) : List Note :=
  (List.range measures).flatMap fun m =>
    let dq := prog.getD (m % prog.length) (1, [])
    let chord := dq.2.map fun i => get_note g dq.1 3 + i
    chord.enum.map fun ni =>
      { pitch := ni.2
        onTick := max 0 ((m * (tpb * 4) : Nat) + jt m ni.1)
        offTick := (m * (tpb * 4) : Nat) + (tpb * 4 : Nat) - 60
        vel := humanize_velocity 45 (jv m ni.1) }

/-- `generate_bass_track` lines 115–124: root hits on beats 0 and 1.5
(half-beat units 0 and 3), jitter `_humanize_time(20)`, duration
`int(ticks_per_beat * 0.8)`. -/
def bassNotes (g : Gen) (prog : Progression) (measures tpb : Nat)
    (jt jv : Nat → Nat → Int) : List Note :=
  (List.range measures).flatMap fun m =>
    ([0, 3] : List Nat).enum.map fun bi =>
      { pitch := get_note g (prog.getD (m % prog.length) (1, [])).1 2
        onTick := max 0 ((m * (tpb * 4) + bi.2 * tpb / 2 : Nat) + jt m bi.1)
        offTick := (m * (tpb * 4) + bi.2 * tpb / 2 : Nat) + (tpb * 4 / 5 : Nat)
        vel := humanize_velocity 70 (jv m bi.1) }

/-- `generate_pad_track` lines 140–148: a three-voice chord held for the
whole measure, fixed velocity 35, no humanization. -/
def padNotes (g : Gen) (prog : Progression) (measures tpb : Nat) : List Note :=
  (List.range measures).flatMap fun m =>
    let dq := prog.getD (m % prog.length) (1, [])
    let root := get_note g dq.1 4
    [root, root + dq.2.getD 1 0,
     root + if 2 < dq.2.length then dq.2.getD 2 0 else 7].map fun note =>
      { pitch := note
        onTick := (m * (tpb * 4) : Nat)
        offTick := (m * (tpb * 4) : Nat) + (tpb * 4 : Nat)
        vel := 35 }

/-- `generate_koto_track` lines 165–174: gated hits on beats 0, 0.5, 2, 2.5
(half-beat units 0, 1, 4, 5), pitch `degree + randint(0, 4)` at octave 5,
fixed 120-tick duration. -/
def kotoNotes (g : Gen) (prog : Progression) (measures tpb : Nat)
    (gate : Nat → Nat → Bool) (dshift : Nat → Nat → Nat) : List Note :=
  (List.range measures).flatMap fun m =>
    ([0, 1, 4, 5] : List Nat).enum.flatMap fun bi =>
      if gate m bi.1 then
        [{ pitch := get_note g ((prog.getD (m % prog.length) (1, [])).1 + dshift m bi.1) 5
           onTick := (m * (tpb * 4) + bi.2 * tpb / 2 : Nat)
           offTick := (m * (tpb * 4) + bi.2 * tpb / 2 : Nat) + 120
           vel := 60 }]
      else []

/-- `generate_accordion_track` lines 191–202: gated double-stops (root and
a third above) on beats 0.5, 1, 2.5, 3 (half-beat units 1, 2, 5, 6),
duration `int(ticks_per_beat * 0.4)`. -/
def accordionNotes (g : Gen) (prog : Progression) (measures tpb : Nat)
    (gate : Nat → Nat → Bool) : List Note :=
  (List.range measures).flatMap fun m =>
    ([1, 2, 5, 6] : List Nat).enum.flatMap fun bi =>
      if gate m bi.1 then
        let root := get_note g (prog.getD (m % prog.length) (1, [])).1 5
        [root, root + 4].map fun note =>
          { pitch := note
            onTick := (m * (tpb * 4) + bi.2 * tpb / 2 : Nat)
            offTick := (m * (tpb * 4) + bi.2 * tpb / 2 : Nat) + (tpb * 2 / 5 : Nat)
            vel := 55 }
      else []

/-- `generate_shakuhachi_track` lines 218–225: every second measure, one
gated note at octave 6 starting at beat 2, lasting
`ticks_per_measure // 2`. -/
def shakuhachiNotes (g : Gen) (prog : Progression) (measures tpb : Nat)
    (gate : Nat → Bool) : List Note :=
  ((List.range measures).filter fun m => m % 2 == 0).flatMap fun m =>
    if gate m then
      [{ pitch := get_note g (prog.getD (m % prog.length) (1, [])).1 6
         onTick := (m * (tpb * 4) + tpb * 2 : Nat)
         offTick := (m * (tpb * 4) + tpb * 2 : Nat) + (tpb * 4 / 2 : Nat)
         vel := 45 }]
    else []

/-- The `'melody'` branch of `generate_full_ensemble` lines 258–267:
gated chord-tone picks (`choose` indexes `random.choice`) transposed an
octave up, on beats 0.5, 2, 3.5 (half-beat units 1, 4, 7), duration
`int(ticks_per_beat * 1.2)`. -/
def melodyNotes (g : Gen) (prog : Progression) (measures tpb : Nat)
    (gate : Nat → Nat → Bool) (choose : Nat → Nat → Nat) : List Note :=
  (List.range measures).flatMap fun m =>
    ([1, 4, 7] : List Nat).enum.flatMap fun bi =>
      if gate m bi.1 then
        let dq := prog.getD (m % prog.length) (1, [])
        let chordNotes := dq.2.map fun i => get_note g dq.1 4 + i
        [{ pitch := chordNotes.getD (choose m bi.1 % chordNotes.length) 0 + 12
           onTick := max 0 ((m * (tpb * 4) + bi.2 * tpb / 2 : Nat) : Int)
           offTick := (m * (tpb * 4) + bi.2 * tpb / 2 : Nat) + (tpb * 6 / 5 : Nat)
           vel := 75 }]
      else []

/-! ## Percussion generator (`DrumGenerator`) -/

/-- General MIDI drum notes used by `DrumGenerator`. -/
def KICK : Int := 36

def SNARE : Int := 38

def RIMSHOT : Int := 37

def CLOSED_HH : Int := 42

def OPEN_HH : Int := 46

/-- `_generate_kick_pattern`: list of `(time, velocity)` pairs.  `vv k` is
the integer variation of the `k`-th `_humanize_velocity` call, `gate`
models the occasional syncopated kick, `o1`/`o2` the `randint` offsets of
the chillhop/jazzhop branch. -/
def kick_pattern (style : LofiStyle) (tpb : Nat) (vv : Nat → Int)
    (gate : Bool) (o1 o2 : Int) : List (Int × Int) :=
  if style = .SLEEP ∨ style = .AMBIENT then
    [(0, humanize_velocity_drum 50 (vv 0)), (((tpb * 2 : Nat) : Int), humanize_velocity_drum 45 (vv 1))]
  else if style = .SAD ∨ style = .NOSTALGIC then
    [(0, humanize_velocity_drum 65 (vv 0)), (((tpb * 2 : Nat) : Int), humanize_velocity_drum 60 (vv 1))] ++
      (if gate then [(((tpb * 3 + tpb / 2 : Nat) : Int), humanize_velocity_drum 55 (vv 2))] else [])
  else
    [(0, humanize_velocity_drum 75 (vv 0)),
     ((tpb : Nat) + o1, humanize_velocity_drum 65 (vv 1)),
     (((tpb * 2 : Nat) : Int), humanize_velocity_drum 70 (vv 2))] ++
      (if gate then [((tpb * 3 + tpb / 2 : Nat) + o2, humanize_velocity_drum 60 (vv 3))] else [])

/-- `_generate_snare_pattern`: list of `(time, note, velocity)` triples. -/
def snare_pattern (style : LofiStyle) (tpb : Nat) (vv : Nat → Int)
    (gate : Bool) (useRim : Bool) (ghost : Bool) : List (Int × Int × Int) :=
  if style = .SLEEP ∨ style = .AMBIENT then
    if gate then [(((tpb * 2 : Nat) : Int), RIMSHOT, humanize_velocity_drum 35 (vv 0))] else []
  else if style = .SAD ∨ style = .NOSTALGIC then
    [(((tpb : Nat) : Int), RIMSHOT, humanize_velocity_drum 55 (vv 0)),
     (((tpb * 3 : Nat) : Int), RIMSHOT, humanize_velocity_drum 50 (vv 1))]
  else
    [(((tpb : Nat) : Int), if useRim then RIMSHOT else SNARE, humanize_velocity_drum 70 (vv 0)),
     (((tpb * 3 : Nat) : Int), if useRim then RIMSHOT else SNARE, humanize_velocity_drum 75 (vv 1))] ++
      (if ghost then [(((tpb / 2 : Nat) : Int), if useRim then RIMSHOT else SNARE,
          humanize_velocity_drum 35 (vv 2))] else [])

/-- `_generate_hihat_pattern`: eighth-note grid with swing on odd
subdivisions and `_humanize_timing` (`ht i` is the integer variation of
the `i`-th call); `openGate i` models the occasional open hi-hat draw. -/
def hihat_pattern (style : LofiStyle) (swing : ℚ) (tpb : Nat) (vv : Nat → Int)
    (gateAll : Bool) (ht : Nat → Int) (openGate : Nat → Bool) : List (Int × Int × Int) :=
  if style = .SLEEP ∨ style = .AMBIENT then
    if gateAll then
      (List.range 4).map fun beat =>
        (((tpb * beat : Nat) : Int), CLOSED_HH, humanize_velocity_drum 30 (vv beat))
    else []
  else
    (List.range 8).map fun i =>
      (humanize_timing ((i * (tpb / 2) : Nat) + apply_swing swing i (tpb / 2)) (ht i),
       if openGate i ∧ i % 2 = 1 then OPEN_HH else CLOSED_HH,
       if i % 4 = 0 then
         humanize_velocity_drum ((if style = .SAD ∨ style = .NOSTALGIC then 50 else 60) + 15) (vv i)
       else if i % 2 = 0 then
         humanize_velocity_drum ((if style = .SAD ∨ style = .NOSTALGIC then 50 else 60) + 8) (vv i)
       else
         humanize_velocity_drum ((if style = .SAD ∨ style = .NOSTALGIC then 50 else 60) - 5) (vv i))

/-- The per-measure random draws of `generate_drum_track`, one field per
random call site. -/
structure DrumRand where
  kickVV : Nat → Nat → Int
  kickGate : Nat → Bool
  kickO1 : Nat → Int
  kickO2 : Nat → Int
  snareVV : Nat → Nat → Int
  snareGate : Nat → Bool
  snareUseRim : Nat → Bool
  snareGhost : Nat → Bool
  hihatVV : Nat → Nat → Int
  hihatGateAll : Nat → Bool
  hihatHT : Nat → Nat → Int
  hihatOpen : Nat → Nat → Bool

/-- `generate_drum_track` lines 273–296: per measure, kick events
(100-tick duration), then snare events (150 ticks), then hi-hat events
(80 ticks), all offset by the measure start. -/
def drumNotes (style : LofiStyle) (swing : ℚ) (measures tpb : Nat)
    (r : DrumRand) : List Note :=
  (List.range measures).flatMap fun measure =>
    (kick_pattern style tpb (r.kickVV measure) (r.kickGate measure)
        (r.kickO1 measure) (r.kickO2 measure)).map
      (fun tv =>
        { pitch := KICK
          onTick := (measure * (tpb * 4) : Nat) + tv.1
          offTick := (measure * (tpb * 4) : Nat) + tv.1 + 100
          vel := tv.2 }) ++
    (snare_pattern style tpb (r.snareVV measure) (r.snareGate measure)
        (r.snareUseRim measure) (r.snareGhost measure)).map
      (fun tnv =>
        { pitch := tnv.2.1
          onTick := (measure * (tpb * 4) : Nat) + tnv.1
          offTick := (measure * (tpb * 4) : Nat) + tnv.1 + 150
          vel := tnv.2.2 }) ++
    (hihat_pattern style swing tpb (r.hihatVV measure) (r.hihatGateAll measure)
        (r.hihatHT measure) (r.hihatOpen measure)).map
      (fun tnv =>
        { pitch := tnv.2.1
          onTick := (measure * (tpb * 4) : Nat) + tnv.1
          offTick := (measure * (tpb * 4) : Nat) + tnv.1 + 80
          vel := tnv.2.2 })

/-! ## Track assembly: sort then delta-encode -/

/-- `generate_harmony_track` as emitted: `events.sort()` then the delta
loop with `last_tick = 0`. -/
def harmonyTrack (g : Gen) (prog : Progression) (measures tpb : Nat)
    (jt jv : Nat → Nat → Int) : List Msg :=
  toMessages 0 (pySort (pairEvents (harmonyNotes g prog measures tpb jt jv)))

/-- `generate_pad_track` as emitted. -/
def padTrack (g : Gen) (prog : Progression) (measures tpb : Nat) : List Msg :=
  toMessages 0 (pySort (pairEvents (padNotes g prog measures tpb)))

/-- `generate_drum_track` as emitted: stable sort on tick, then the delta
loop with `current_time = 0`. -/
def drumTrack (style : LofiStyle) (swing : ℚ) (measures tpb : Nat)
    (r : DrumRand) : List Msg :=
  toMessages 0 (drumSort (pairEvents (drumNotes style swing measures tpb r)))

/-! ## Event pairing: every on-event has a later matching off-event -/

/-- Decidable check that every note has a strictly positive duration. -/
def durationsOk (ns : List Note) : Bool :=
  ns.all fun n => n.onTick < n.offTick

/-- Remove the first off-event for pitch `p` with tick strictly greater
than `t`; `none` when there is no such event. -/
def matchOff (p t : Int) : List Event → Option (List Event)
  | [] => none
  | e :: es =>
    if e.kind = .off ∧ e.note = p ∧ t < e.tick then some es
    else
      match matchOff p t es with
      | some es2 => some (e :: es2)
      | none => none

theorem matchOff_length (p t : Int) :
    ∀ l l2, matchOff p t l = some l2 → l2.length < l.length := by
  intro l
  induction l with
  | nil => intro l2 h; simp [matchOff] at h
  | cons e es ih =>
    intro l2 h
    rw [matchOff] at h
    split at h
    · cases h
      simp
    · cases heq : matchOff p t es with
      | some es2 =>
        rw [heq] at h
        cases h
        have := ih es2 heq
        simp
        omega
      | none => rw [heq] at h; cases h

/-- Decidable check that every on-event can be matched, greedily, with a
later off-event for the same pitch at a strictly greater tick. -/
def wellPaired : List Event → Bool
  | [] => true
  | e :: es =>
    match e.kind with
    | .off => wellPaired es
    | .on =>
      match h : matchOff e.note e.tick es with
      | some es2 => wellPaired es2
      | none => false
termination_by l => l.length
decreasing_by
  · simp
  · have := matchOff_length e.note e.tick es es2 h
    simp
    omega

theorem wellPaired_pairEvents (ns : List Note)
    (h : ∀ n ∈ ns, n.onTick < n.offTick) : wellPaired (pairEvents ns) = true := by
  induction ns with
  | nil => simp [pairEvents, wellPaired]
  | cons n ns ih =>
    have hdur := h n (List.mem_cons_self n ns)
    rw [pairEvents, List.flatMap_cons, List.cons_append, List.cons_append,
      List.nil_append]
    rw [wellPaired]
    simp only
    rw [matchOff]
    rw [if_pos ⟨rfl, rfl, hdur⟩]
    exact ih fun m hm => h m (List.mem_cons_of_mem n hm)

theorem durationsOk_iff (ns : List Note) :
    durationsOk ns = true ↔ ∀ n ∈ ns, n.onTick < n.offTick := by
  simp [durationsOk, List.all_eq_true, decide_eq_true_eq]

/-! ## Stability of the drum sort -/

theorem filter_orderedInsert_tickLE (a : Event) (t : Int) (l : List Event) :
    (List.orderedInsert tickLE a l).filter (fun e => e.tick == t) =
      if a.tick = t then a :: l.filter (fun e => e.tick == t)
      else l.filter (fun e => e.tick == t) := by
  induction l with
  | nil =>
    by_cases hat : a.tick = t
    · simp [List.orderedInsert, List.filter, hat]
    · have h1 : (a.tick == t) = false := by simp [beq_iff_eq]; exact hat
      simp [List.orderedInsert, List.filter, h1, hat]
  | cons b l ih =>
    rw [List.orderedInsert]
    split
    · rename_i hr
      by_cases hat : a.tick = t
      · simp [List.filter, hat, if_pos hat]
      · have : (a.tick == t) = false := by simp [beq_iff_eq]; exact hat
        simp [List.filter, this, if_neg hat]
    · rename_i hr
      have hbt : b.tick ≠ t → (b.tick == t) = false := by
        intro h; simp [beq_iff_eq]; exact h
      by_cases hb : b.tick = t
      · -- b keeps its place; a.tick > b.tick = t so a.tick ≠ t
        have hat : a.tick ≠ t := by
          simp only [tickLE] at hr
          omega
        have h1 : (b.tick == t) = true := by simp [beq_iff_eq]; exact hb
        simp only [List.filter, h1, ih, if_neg hat]
      · have h1 : (b.tick == t) = false := hbt hb
        simp only [List.filter, h1, ih]

theorem filter_drumSort (l : List Event) (t : Int) :
    (drumSort l).filter (fun e => e.tick == t) = l.filter (fun e => e.tick == t) := by
  induction l with
  | nil => rfl
  | cons a l ih =>
    rw [drumSort, List.insertionSort]
    rw [filter_orderedInsert_tickLE]
    by_cases hat : a.tick = t
    · have h1 : (a.tick == t) = true := by simp [beq_iff_eq]; exact hat
      rw [if_pos hat]
      simp only [List.filter, h1]
      rw [← drumSort, ih]
    · have h1 : (a.tick == t) = false := by simp [beq_iff_eq]; exact hat
      rw [if_neg hat]
      simp only [List.filter, h1]
      rw [← drumSort, ih]

/-! ## Style preset resolver (`LofiEngine`) -/

/-- One entry of `LofiEngine.STYLE_PRESETS`. -/
structure Preset where
  name : String
  bpm_range : Int × Int
  key_preferences : List String
  mode : String
  measures : Nat
  has_drums : Bool
  drum_intensity : String
deriving DecidableEq, BEq

/-- `LofiEngine.STYLE_PRESETS`: six entries; `ORIENTAL` and `NORDESTE`
have none. -/
def STYLE_PRESETS : List (LofiStyle × Preset) :=
  [(.CHILLHOP, ⟨"Chillhop", (75, 90), ["C", "F", "G", "D"], "major", 16, true, "medium"⟩),
   (.JAZZHOP, ⟨"Jazzhop", (80, 95), ["Eb", "Bb", "F", "Ab"], "dorian", 16, true, "medium"⟩),
   (.SLEEP, ⟨"Sleep/Ambient Lo-Fi", (60, 70), ["A", "E", "D", "G"], "major", 24, false, "minimal"⟩),
   (.AMBIENT, ⟨"Ambient Lo-Fi", (60, 70), ["A", "E", "D"], "minor", 24, false, "minimal"⟩),
   (.SAD, ⟨"Sad Lo-Fi", (70, 80), ["Am", "Dm", "Em", "Bm"], "minor", 16, true, "low"⟩),
   (.NOSTALGIC, ⟨"Nostalgic Lo-Fi", (70, 80), ["C", "G", "D", "A"], "major", 16, true, "low"⟩)]

/-- Dictionary access `self.STYLE_PRESETS[style]` as a partial lookup. -/
def stylePreset (style : LofiStyle) : Option Preset :=
  (STYLE_PRESETS.find? fun p => p.1 == style).map Prod.snd

/-- Python `key_str.endswith('m')`: the last character is `'m'`. -/
def py_endswith_m (s : String) : Bool :=
  s.data.getLast? == some 'm'

/-- Python `key_str[:-1]`: drop the last character. -/
def py_drop_last (s : String) : String :=
  ⟨s.data.dropLast⟩

/-- `LofiEngine._parse_key_and_mode`: a trailing `'m'` marks minor. -/
def parse_key_and_mode (key_str : String) : String × String :=
  if py_endswith_m key_str then (py_drop_last key_str, "minor") else (key_str, "major")

/-- The parameters resolved by `LofiEngine.generate_track` before any
track is generated. -/
structure ResolvedParams where
  key : String
  mode : String
  bpm : Int
  measures : Nat
  include_drums : Bool
deriving DecidableEq, BEq

/-- `LofiEngine.generate_track` lines 131–149: preset lookup (a `KeyError`
for styles without a preset, modelled as `Except.error`) followed by
parameter resolution.  `randChoice` models `random.choice` and
`randInt a b` models `random.randint(a, b)`. -/
def generate_track_params (style : LofiStyle) (key : Option String)
    (bpm : Option Int) (measures : Option Nat) (include_drums : Option Bool)
    (randChoice : List String → String) (randInt : Int → Int → Int) :
    Except String ResolvedParams :=
  match stylePreset style with
  | none => .error "KeyError"
  | some preset =>
    let km := match key with
      | none => parse_key_and_mode (randChoice preset.key_preferences)
      | some k => parse_key_and_mode k
    .ok
      { key := km.1
        mode := km.2
        bpm := match bpm with
          | none => randInt preset.bpm_range.1 preset.bpm_range.2
          | some b => b
        measures := measures.getD preset.measures
        include_drums := include_drums.getD preset.has_drums }

/-! ## Helper lemmas for the claim theorems -/

/-- The generator state of the default `LofiMidiGenerator('A', 'minor')`:
root pitch class 9 with the minor scale. -/
def genA : Gen := ⟨9, scale_for "minor"⟩

theorem deltaDecode_deltaEncode (l : List Int) :
    ∀ last : Int, deltaDecode last (deltaEncode last l) = l := by
  induction l with
  | nil => intro last; rfl
  | cons t ts ih =>
    intro last
    rw [deltaEncode, deltaDecode]
    have h1 : last + (t - last) = t := by omega
    rw [h1, ih]

theorem toMessages_times (evs : List Event) :
    ∀ last : Int, (toMessages last evs).map Msg.time = deltaEncode last (evs.map Event.tick) := by
  induction evs with
  | nil => intro last; rfl
  | cons e es ih =>
    intro last
    rw [toMessages]
    simp only [List.map_cons]
    rw [deltaEncode, ih]

/-! ## Claim theorems -/

/-- C2: `_get_note(degree, octave)` returns exactly
`root + scale[(degree-1) mod len(scale)] + 12*(octave + floor((degree-1)/len(scale)))`
for every `degree ≥ 1` and every octave; on a 7-note scale, degree 8 is
degree 1 one octave up, and degree 9 is degree 2 one octave up. -/
theorem c2_get_note_formula :
    (∀ (g : Gen) (degree : Nat) (octave : Int), 1 ≤ degree →
      get_note g degree octave = note_spec g degree octave) ∧
    (∀ (g : Gen) (octave : Int), g.scale.length = 7 →
      get_note g 8 octave = get_note g 1 (octave + 1) ∧
      get_note g 9 octave = get_note g 2 (octave + 1)) := by
  constructor
  · intro g degree octave _
    rw [get_note, note_spec]
    ring
  · intro g octave h7
    rw [get_note, get_note, get_note, get_note, h7]
    norm_num

/-- Witness for C2 at the default A-minor generator, degree 8, octave 0. -/
theorem c2_witness :
    (1 ≤ 8 ∧ genA.scale.length = 7) ∧
    get_note genA 8 0 = note_spec genA 8 0 ∧
    get_note genA 8 0 = get_note genA 1 (0 + 1) :=
  ⟨⟨by decide, by decide⟩,
   c2_get_note_formula.1 genA 8 0 (by decide),
   (c2_get_note_formula.2 genA 0 (by decide)).1⟩

/-- C3: the serializer writes each event's time as its absolute tick minus
the previous event's tick, starting from 0, so the running sum of deltas
reconstructs the absolute ticks exactly — both in general and for the
emitted harmony and drum tracks. -/
theorem c3_delta_roundtrip :
    (∀ (last : Int) (l : List Int), deltaDecode last (deltaEncode last l) = l) ∧
    (∀ (last : Int) (evs : List Event),
      (toMessages last evs).map Msg.time = deltaEncode last (evs.map Event.tick)) ∧
    (∀ (g : Gen) (prog : Progression) (measures tpb : Nat) (jt jv : Nat → Nat → Int),
      deltaDecode 0 ((harmonyTrack g prog measures tpb jt jv).map Msg.time) =
        (pySort (pairEvents (harmonyNotes g prog measures tpb jt jv))).map Event.tick) ∧
    (∀ (style : LofiStyle) (swing : ℚ) (measures tpb : Nat) (r : DrumRand),
      deltaDecode 0 ((drumTrack style swing measures tpb r).map Msg.time) =
        (drumSort (pairEvents (drumNotes style swing measures tpb r))).map Event.tick) := by
  refine ⟨fun last l => deltaDecode_deltaEncode l last,
    fun last evs => toMessages_times evs last, ?_, ?_⟩
  · intro g prog measures tpb jt jv
    rw [harmonyTrack, toMessages_times, deltaDecode_deltaEncode]
  · intro style swing measures tpb r
    rw [drumTrack, toMessages_times, deltaDecode_deltaEncode]

/-- C5: both velocity-humanization functions clamp to fixed bounds —
`[30, 110]` in `LofiMidiGenerator`, `[20, 127]` in `DrumGenerator` —
for every base velocity and every (arbitrarily extreme) perturbation;
the floors are positive and the ceilings are at most the MIDI maximum 127. -/
theorem c5_velocity_bounds :
    (∀ base r : Int,
      30 ≤ humanize_velocity base r ∧ humanize_velocity base r ≤ 110) ∧
    (∀ base variation : Int,
      20 ≤ humanize_velocity_drum base variation ∧
        humanize_velocity_drum base variation ≤ 127) ∧
    ((0 : Int) < 30 ∧ (0 : Int) < 20 ∧ (110 : Int) ≤ 127) := by
  refine ⟨fun base r => ?_, fun base v => ?_, by norm_num⟩
  · rw [humanize_velocity]
    omega
  · rw [humanize_velocity_drum]
    omega

/-- C7: `_parse_key` resolves sharp names and plain names correctly and
never raises, and unknown modes fall back to the minor scale — but flat
names are broken: `key.upper()` turns `'Eb'` into `'EB'`, which misses the
table (whose own entry maps `'Eb'` to 3), so every flat key silently
returns the default 9 even though the jazzhop preset itself asks for
`['Eb', 'Bb', 'F', 'Ab']`.  This contradicts the table's evident intent:
a code bug, exhibited here by evaluation. -/
theorem c7_parse_key_flats :
    (parse_key "C" = 0 ∧ parse_key "F#" = 6 ∧ parse_key "c" = 0 ∧
      parse_key "g#" = 8 ∧ parse_key "B" = 11 ∧ parse_key "unknown" = 9) ∧
    (parse_key "Eb" = 9 ∧ parse_key "Bb" = 9 ∧ parse_key "Ab" = 9 ∧
      parse_key "Db" = 9 ∧ parse_key "Gb" = 9) ∧
    ((key_map.find? fun p => p.1 == "Eb").map Prod.snd = some 3 ∧
      (key_map.find? fun p => p.1 == "Bb").map Prod.snd = some 10) ∧
    ((stylePreset .JAZZHOP).map Preset.key_preferences = some ["Eb", "Bb", "F", "Ab"]) ∧
    (resolve_mode "unknown_mode" = "minor" ∧
      scale_for "unknown_mode" = [0, 2, 3, 5, 7, 8, 10] ∧
      scale_for "lydian_b7" = [0, 2, 4, 6, 7, 9, 10]) := by
  decide

/-- C10: the preset table has no entry for `ORIENTAL` or `NORDESTE`, so
`generate_track` raises a lookup error for those two styles before doing
anything else, while the other six styles all have presets. -/
theorem c10_missing_presets :
    stylePreset .ORIENTAL = none ∧ stylePreset .NORDESTE = none ∧
    (∀ (randChoice : List String → String) (randInt : Int → Int → Int)
        (key : Option String) (bpm : Option Int) (measures : Option Nat)
        (drums : Option Bool),
      generate_track_params .ORIENTAL key bpm measures drums randChoice randInt =
          .error "KeyError" ∧
      generate_track_params .NORDESTE key bpm measures drums randChoice randInt =
          .error "KeyError") ∧
    ((stylePreset .CHILLHOP).isSome ∧ (stylePreset .JAZZHOP).isSome ∧
      (stylePreset .SLEEP).isSome ∧ (stylePreset .AMBIENT).isSome ∧
      (stylePreset .SAD).isSome ∧ (stylePreset .NOSTALGIC).isSome) := by
  refine ⟨rfl, rfl, fun randChoice randInt key bpm measures drums => ⟨rfl, rfl⟩, ?_⟩
  decide

/-- C8: progression selection groups deterministically on the mode —
`pentatonic_minor` draws from the oriental catalog, `lydian_b7` from the
nordeste catalog, every other mode from the melancholic catalog — and the
selected progression never lies in another group. -/
theorem c8_progression_grouping (choice : List Progression → Progression)
    (hchoice : ∀ l, l ≠ [] → choice l ∈ l) :
    (select_progression "pentatonic_minor" choice ∈ ORIENTAL_PROGRESSIONS ∧
      select_progression "pentatonic_minor" choice ∉ MELANCHOLIC_PROGRESSIONS ∧
      select_progression "pentatonic_minor" choice ∉ NORDESTE_PROGRESSIONS) ∧
    (select_progression "lydian_b7" choice ∈ NORDESTE_PROGRESSIONS ∧
      select_progression "lydian_b7" choice ∉ MELANCHOLIC_PROGRESSIONS ∧
      select_progression "lydian_b7" choice ∉ ORIENTAL_PROGRESSIONS) ∧
    (∀ mode : String, mode ≠ "pentatonic_minor" → mode ≠ "lydian_b7" →
      select_progression mode choice ∈ MELANCHOLIC_PROGRESSIONS ∧
      select_progression mode choice ∉ ORIENTAL_PROGRESSIONS ∧
      select_progression mode choice ∉ NORDESTE_PROGRESSIONS) := by
  have hor := hchoice ORIENTAL_PROGRESSIONS (by decide)
  have hnor := hchoice NORDESTE_PROGRESSIONS (by decide)
  have hmel := hchoice MELANCHOLIC_PROGRESSIONS (by decide)
  have dor : ∀ p ∈ ORIENTAL_PROGRESSIONS,
      p ∉ MELANCHOLIC_PROGRESSIONS ∧ p ∉ NORDESTE_PROGRESSIONS := by decide
  have dnor : ∀ p ∈ NORDESTE_PROGRESSIONS,
      p ∉ MELANCHOLIC_PROGRESSIONS ∧ p ∉ ORIENTAL_PROGRESSIONS := by decide
  have dmel : ∀ p ∈ MELANCHOLIC_PROGRESSIONS,
      p ∉ ORIENTAL_PROGRESSIONS ∧ p ∉ NORDESTE_PROGRESSIONS := by decide
  refine ⟨?_, ?_, ?_⟩
  · rw [show select_progression "pentatonic_minor" choice = choice ORIENTAL_PROGRESSIONS
      from rfl]
    exact ⟨hor, (dor _ hor).1, (dor _ hor).2⟩
  · rw [show select_progression "lydian_b7" choice = choice NORDESTE_PROGRESSIONS
      from rfl]
    exact ⟨hnor, (dnor _ hnor).1, (dnor _ hnor).2⟩
  · intro mode h1 h2
    rw [select_progression, if_neg h1, if_neg h2]
    exact ⟨hmel, (dmel _ hmel).1, (dmel _ hmel).2⟩

/-- Witness for C8 with the first-element chooser and mode `dorian`. -/
theorem c8_witness :
    select_progression "pentatonic_minor" (fun l => l.headD []) ∈ ORIENTAL_PROGRESSIONS ∧
    select_progression "dorian" (fun l => l.headD []) ∈ MELANCHOLIC_PROGRESSIONS := by
  have hchoice : ∀ l : List Progression, l ≠ [] → l.headD [] ∈ l := by
    intro l hl
    cases l with
    | nil => exact absurd rfl hl
    | cons a l => exact List.mem_cons_self a l
  exact ⟨(c8_progression_grouping _ hchoice).1.1,
    ((c8_progression_grouping _ hchoice).2.2 "dorian" (by decide) (by decide)).1⟩

/-- C6: the swing offset is applied only to odd (off-beat) subdivisions,
vanishes at `swing_fraction = 1/2`, and is strictly positive at every
odd position for any swing the program can draw above `1/2` (all drawn
values are at least `0.52`, and the hi-hat grid uses 240 ticks per
subdivision); `_get_swing_amount` draws from `[0.55, 0.67]` for chillhop
and jazzhop, returns exactly `1/2` for sleep and ambient, and draws from
`[0.52, 0.58]` otherwise. -/
theorem c6_swing (uniform : ℚ → ℚ → ℚ)
    (hu : ∀ a b : ℚ, a ≤ b → a ≤ uniform a b ∧ uniform a b ≤ b) :
    (∀ (s : ℚ) (pos tps : Nat), pos % 2 = 0 → apply_swing s pos tps = 0) ∧
    (∀ (pos tps : Nat), apply_swing (1 / 2) pos tps = 0) ∧
    (get_swing_amount .SLEEP uniform = 1 / 2 ∧
      get_swing_amount .AMBIENT uniform = 1 / 2) ∧
    (∀ style : LofiStyle,
      (style = .CHILLHOP ∨ style = .JAZZHOP →
        11 / 20 ≤ get_swing_amount style uniform ∧
          get_swing_amount style uniform ≤ 67 / 100) ∧
      (style ≠ .CHILLHOP → style ≠ .JAZZHOP → style ≠ .SLEEP → style ≠ .AMBIENT →
        13 / 25 ≤ get_swing_amount style uniform ∧
          get_swing_amount style uniform ≤ 29 / 50)) ∧
    (∀ style : LofiStyle, ∀ pos : Nat, pos % 2 = 1 →
      1 / 2 < get_swing_amount style uniform →
      0 < apply_swing (get_swing_amount style uniform) pos 240) := by
  have hrange : ∀ style : LofiStyle, get_swing_amount style uniform = 1 / 2 ∨
      13 / 25 ≤ get_swing_amount style uniform := by
    intro style
    rw [get_swing_amount]
    split
    · right
      have := (hu (11 / 20) (67 / 100) (by norm_num)).1
      linarith
    · split
      · left; rfl
      · right
        exact (hu (13 / 25) (29 / 50) (by norm_num)).1
  refine ⟨?_, ?_, ⟨rfl, rfl⟩, ?_, ?_⟩
  · intro s pos tps h
    rw [apply_swing, if_neg]
    rintro ⟨h1, -⟩
    omega
  · intro pos tps
    rw [apply_swing, if_neg]
    rintro ⟨-, h2⟩
    exact lt_irrefl _ h2
  · intro style
    constructor
    · rintro (rfl | rfl) <;>
        exact hu (11 / 20) (67 / 100) (by norm_num)
    · intro h1 h2 h3 h4
      rw [get_swing_amount, if_neg (by tauto), if_neg (by tauto)]
      exact hu (13 / 25) (29 / 50) (by norm_num)
  · intro style pos hpos hgt
    rcases hrange style with heq | hge
    · rw [heq] at hgt
      exact absurd hgt (lt_irrefl _)
    · rw [apply_swing, if_pos ⟨hpos, hgt⟩]
      have h1 : (1 : Int) ≤
          ⌊((240 : Nat) : ℚ) * (get_swing_amount style uniform - 1 / 2) * 2⌋ := by
        rw [Int.le_floor]
        push_cast
        linarith
      omega

/-- Witness for C6: the constant-left chooser, chillhop, position 1. -/
theorem c6_witness :
    apply_swing (1 / 2) 1 240 = 0 ∧
    get_swing_amount .SLEEP (fun a _ => a) = 1 / 2 ∧
    0 < apply_swing (get_swing_amount .CHILLHOP (fun a _ => a)) 1 240 := by
  have hu : ∀ a b : ℚ, a ≤ b → a ≤ (fun a _ => a) a b ∧ (fun a _ => a) a b ≤ b :=
    fun a b h => ⟨le_refl a, h⟩
  refine ⟨(c6_swing _ hu).2.1 1 240, (c6_swing _ hu).2.2.1.1, ?_⟩
  refine (c6_swing _ hu).2.2.2.2 .CHILLHOP 1 rfl ?_
  rw [show get_swing_amount .CHILLHOP (fun a _ => a) = 11 / 20 from rfl]
  norm_num

/-- C9: for every style that has a preset and *every* combination of
caller overrides (each of key, tempo, measures and drum flag
independently provided or omitted — the resolved record's fields are
`provided.getD default` for arbitrary `Option` arguments), the resolver
uses each provided parameter unchanged and substitutes the style default
for each omitted one — key drawn from the preset's preference list and
split into pitch name plus mode (trailing `'m'` means minor, otherwise
major), tempo drawn inside the preset's `[min, max]` range, measure
count and drum flag taken verbatim from the preset. -/
theorem c9_preset_resolution (style : LofiStyle) (preset : Preset)
    (hp : stylePreset style = some preset)
    (randChoice : List String → String) (randInt : Int → Int → Int)
    (hc : ∀ l : List String, l ≠ [] → randChoice l ∈ l)
    (hr : ∀ a b : Int, a ≤ b → a ≤ randInt a b ∧ randInt a b ≤ b) :
    (∀ (key : Option String) (bpm : Option Int) (measures : Option Nat)
        (drums : Option Bool),
      generate_track_params style key bpm measures drums randChoice randInt =
        .ok ⟨(parse_key_and_mode (key.getD (randChoice preset.key_preferences))).1,
             (parse_key_and_mode (key.getD (randChoice preset.key_preferences))).2,
             bpm.getD (randInt preset.bpm_range.1 preset.bpm_range.2),
             measures.getD preset.measures,
             drums.getD preset.has_drums⟩) ∧
    randChoice preset.key_preferences ∈ preset.key_preferences ∧
    (preset.bpm_range.1 ≤ randInt preset.bpm_range.1 preset.bpm_range.2 ∧
      randInt preset.bpm_range.1 preset.bpm_range.2 ≤ preset.bpm_range.2) ∧
    (∀ k : String,
      (py_endswith_m k = true → parse_key_and_mode k = (py_drop_last k, "minor")) ∧
      (py_endswith_m k = false → parse_key_and_mode k = (k, "major"))) := by
  have htable : ∀ p ∈ STYLE_PRESETS,
      p.2.key_preferences ≠ [] ∧ p.2.bpm_range.1 ≤ p.2.bpm_range.2 := by
    intro p hpm
    fin_cases hpm <;> exact ⟨by decide, by decide⟩
  have hmem : ∃ p ∈ STYLE_PRESETS, p.2 = preset := by
    rcases hfind : STYLE_PRESETS.find? (fun p => p.1 == style) with _ | p
    · rw [stylePreset, hfind] at hp
      cases hp
    · rw [stylePreset, hfind] at hp
      cases hp
      exact ⟨p, List.mem_of_find?_eq_some hfind, rfl⟩
  obtain ⟨p, hpmem, hpeq⟩ := hmem
  have hprops := htable p hpmem
  rw [hpeq] at hprops
  refine ⟨?_, hc _ hprops.1, hr _ _ hprops.2, ?_⟩
  · intro key bpm measures drums
    cases key <;> cases bpm <;>
      simp only [generate_track_params, hp, Option.getD_some, Option.getD_none]
  · intro k
    constructor
    · intro h
      rw [parse_key_and_mode, if_pos h]
    · intro h
      rw [parse_key_and_mode, if_neg (by rw [h]; exact Bool.false_ne_true)]

/-- Witness for C9 at chillhop with the first-element chooser and the
lower-bound tempo draw: all parameters omitted, all provided, and a
mixed combination (key and measures provided, tempo and drums omitted). -/
theorem c9_witness :
    generate_track_params .CHILLHOP none none none none
        (fun l => l.headD "") (fun a _ => a) = .ok ⟨"C", "major", 75, 16, true⟩ ∧
    generate_track_params .CHILLHOP (some "Am") (some 85) (some 8) (some false)
        (fun l => l.headD "") (fun a _ => a) = .ok ⟨"A", "minor", 85, 8, false⟩ ∧
    generate_track_params .CHILLHOP (some "F") none (some 4) none
        (fun l => l.headD "") (fun a _ => a) = .ok ⟨"F", "major", 75, 4, true⟩ := by
  have hc : ∀ l : List String, l ≠ [] → (fun l => l.headD "") l ∈ l := by
    intro l hl
    cases l with
    | nil => exact absurd rfl hl
    | cons a l => exact List.mem_cons_self a l
  have hr : ∀ a b : Int, a ≤ b → a ≤ (fun a _ => a) a b ∧ (fun a _ => a) a b ≤ b :=
    fun a b h => ⟨le_refl a, h⟩
  have h := c9_preset_resolution .CHILLHOP
    ⟨"Chillhop", (75, 90), ["C", "F", "G", "D"], "major", 16, true, "medium"⟩
    rfl (fun l => l.headD "") (fun a _ => a) hc hr
  refine ⟨?_, ?_, ?_⟩
  · rw [h.1 none none none none]
    rfl
  · rw [h.1 (some "Am") (some 85) (some 8) (some false)]
    rfl
  · rw [h.1 (some "F") none (some 4) none]
    rfl

/-- Decidable scan for a same-tick inversion: some off-event is followed,
later in the list, by an on-event at the very same tick. -/
def offThenOnViolation : List Event → Bool
  | [] => false
  | e :: es =>
    (e.kind == EKind.off && es.any fun e2 => e2.tick == e.tick && e2.kind == EKind.on) ||
      offThenOnViolation es

/-- C1 counterexample: the pad track of the default A-minor generator with
the first melancholic progression and two measures (no randomness is
involved) emits, after `events.sort()`, off-events at tick 1920 *before*
the on-events at tick 1920 — Python's tuple sort orders `'off' < 'on'`,
the opposite of the claimed on-before-off tie-break. -/
theorem c1_counterexample :
    offThenOnViolation
      (pySort (pairEvents (padNotes genA (MELANCHOLIC_PROGRESSIONS.getD 0 []) 2 480))) =
      true := by
  decide

/-- C1 amended: the emitted lists are sorted by absolute tick, but ties
are not broken on-before-off with insertion order preserved.  In the
melodic generators the sort is the full lexicographic tuple comparison,
so at equal ticks off-events precede on-events (then pitch, then
velocity); in the drum generator the sort is stable and keyed on the tick
alone, so insertion order is preserved among equal-tick events (the
filter identity below). -/
theorem c1_sort_order_amended (l : List Event) :
    (pySort l).Pairwise (fun a b => a.tick ≤ b.tick ∧
      (a.tick = b.tick → ¬(a.kind = EKind.on ∧ b.kind = EKind.off))) ∧
    (pySort l).Perm l ∧
    List.Pairwise pyR (pySort l) ∧
    List.Pairwise tickLE (drumSort l) ∧
    (drumSort l).Perm l ∧
    (∀ t : Int, (drumSort l).filter (fun e => e.tick == t) =
      l.filter (fun e => e.tick == t)) := by
  have hs : List.Pairwise pyR (pySort l) := List.sorted_insertionSort pyR l
  refine ⟨?_, List.perm_insertionSort pyR l, hs,
    List.sorted_insertionSort tickLE l, List.perm_insertionSort tickLE l,
    filter_drumSort l⟩
  refine hs.imp ?_
  intro a b hab
  rw [pyR_iff] at hab
  constructor
  · omega
  · rintro heq ⟨hon, hoff⟩
    rw [hon, hoff] at hab
    simp only [EKind.rank] at hab
    omega

theorem harmony_durations (g : Gen) (prog : Progression) (measures : Nat)
    (jt jv : Nat → Nat → Int) (hj : ∀ m i, -40 ≤ jt m i ∧ jt m i ≤ 40) :
    ∀ n ∈ harmonyNotes g prog measures 480 jt jv, n.onTick < n.offTick := by
  intro n hn
  simp only [harmonyNotes, List.mem_flatMap, List.mem_map, List.mem_range] at hn
  obtain ⟨m, hm, ni, hni, rfl⟩ := hn
  have := hj m ni.1
  simp only
  omega

theorem bass_durations (g : Gen) (prog : Progression) (measures : Nat)
    (jt jv : Nat → Nat → Int) (hj : ∀ m i, -20 ≤ jt m i ∧ jt m i ≤ 20) :
    ∀ n ∈ bassNotes g prog measures 480 jt jv, n.onTick < n.offTick := by
  intro n hn
  simp only [bassNotes, List.mem_flatMap, List.mem_map, List.mem_range] at hn
  obtain ⟨m, hm, bi, hbi, rfl⟩ := hn
  have := hj m bi.1
  simp only
  omega

theorem pad_durations (g : Gen) (prog : Progression) (measures : Nat) :
    ∀ n ∈ padNotes g prog measures 480, n.onTick < n.offTick := by
  intro n hn
  simp only [padNotes, List.mem_flatMap, List.mem_map, List.mem_range] at hn
  obtain ⟨m, hm, note, hnote, rfl⟩ := hn
  simp only
  omega

theorem koto_durations (g : Gen) (prog : Progression) (measures : Nat)
    (gate : Nat → Nat → Bool) (dshift : Nat → Nat → Nat) :
    ∀ n ∈ kotoNotes g prog measures 480 gate dshift, n.onTick < n.offTick := by
  intro n hn
  simp only [kotoNotes, List.mem_flatMap, List.mem_range] at hn
  obtain ⟨m, hm, bi, hbi, hn⟩ := hn
  by_cases hg : gate m bi.1 <;> simp [hg] at hn
  rw [hn]
  simp only
  omega

theorem accordion_durations (g : Gen) (prog : Progression) (measures : Nat)
    (gate : Nat → Nat → Bool) :
    ∀ n ∈ accordionNotes g prog measures 480 gate, n.onTick < n.offTick := by
  intro n hn
  simp only [accordionNotes, List.mem_flatMap, List.mem_range] at hn
  obtain ⟨m, hm, bi, hbi, hn⟩ := hn
  by_cases hg : gate m bi.1 <;> simp [hg, List.mem_map] at hn
  rcases hn with rfl | rfl <;>
    · simp only
      omega

theorem shakuhachi_durations (g : Gen) (prog : Progression) (measures : Nat)
    (gate : Nat → Bool) :
    ∀ n ∈ shakuhachiNotes g prog measures 480 gate, n.onTick < n.offTick := by
  intro n hn
  simp only [shakuhachiNotes, List.mem_flatMap, List.mem_filter,
    List.mem_range] at hn
  obtain ⟨m, hm, hn⟩ := hn
  by_cases hg : gate m <;> simp [hg] at hn
  rw [hn]
  simp only
  omega

theorem melody_durations (g : Gen) (prog : Progression) (measures : Nat)
    (gate : Nat → Nat → Bool) (choose : Nat → Nat → Nat) :
    ∀ n ∈ melodyNotes g prog measures 480 gate choose, n.onTick < n.offTick := by
  intro n hn
  simp only [melodyNotes, List.mem_flatMap, List.mem_range] at hn
  obtain ⟨m, hm, bi, hbi, hn⟩ := hn
  by_cases hg : gate m bi.1 <;> simp [hg] at hn
  rw [hn]
  simp only
  omega

theorem drum_durations (style : LofiStyle) (swing : ℚ) (measures : Nat)
    (r : DrumRand) :
    ∀ n ∈ drumNotes style swing measures 480 r, n.onTick < n.offTick := by
  intro n hn
  simp only [drumNotes, List.mem_flatMap, List.mem_append, List.mem_map,
    List.mem_range] at hn
  obtain ⟨m, hm, hn⟩ := hn
  rcases hn with (⟨tv, htv, rfl⟩ | ⟨tnv, htnv, rfl⟩) | ⟨tnv, htnv, rfl⟩ <;>
    · simp only
      omega

/-- C4: in every generator — harmony, bass, pad, koto, accordion,
shakuhachi, melody and drums — for any measure count and any admissible
random draws, every note has a strictly positive duration
(`durationsOk`), and the constructed event list pairs every on-event with
a later off-event for the same pitch at a strictly greater tick
(`wellPaired`), at the repository's fixed 480 ticks per beat. -/
theorem c4_on_off_pairing :
    (∀ (g : Gen) (prog : Progression) (measures : Nat) (jt jv : Nat → Nat → Int),
      (∀ m i, -40 ≤ jt m i ∧ jt m i ≤ 40) →
      durationsOk (harmonyNotes g prog measures 480 jt jv) = true ∧
      wellPaired (pairEvents (harmonyNotes g prog measures 480 jt jv)) = true) ∧
    (∀ (g : Gen) (prog : Progression) (measures : Nat) (jt jv : Nat → Nat → Int),
      (∀ m i, -20 ≤ jt m i ∧ jt m i ≤ 20) →
      durationsOk (bassNotes g prog measures 480 jt jv) = true ∧
      wellPaired (pairEvents (bassNotes g prog measures 480 jt jv)) = true) ∧
    (∀ (g : Gen) (prog : Progression) (measures : Nat),
      durationsOk (padNotes g prog measures 480) = true ∧
      wellPaired (pairEvents (padNotes g prog measures 480)) = true) ∧
    (∀ (g : Gen) (prog : Progression) (measures : Nat)
        (gate : Nat → Nat → Bool) (dshift : Nat → Nat → Nat),
      durationsOk (kotoNotes g prog measures 480 gate dshift) = true ∧
      wellPaired (pairEvents (kotoNotes g prog measures 480 gate dshift)) = true) ∧
    (∀ (g : Gen) (prog : Progression) (measures : Nat) (gate : Nat → Nat → Bool),
      durationsOk (accordionNotes g prog measures 480 gate) = true ∧
      wellPaired (pairEvents (accordionNotes g prog measures 480 gate)) = true) ∧
    (∀ (g : Gen) (prog : Progression) (measures : Nat) (gate : Nat → Bool),
      durationsOk (shakuhachiNotes g prog measures 480 gate) = true ∧
      wellPaired (pairEvents (shakuhachiNotes g prog measures 480 gate)) = true) ∧
    (∀ (g : Gen) (prog : Progression) (measures : Nat)
        (gate : Nat → Nat → Bool) (choose : Nat → Nat → Nat),
      durationsOk (melodyNotes g prog measures 480 gate choose) = true ∧
      wellPaired (pairEvents (melodyNotes g prog measures 480 gate choose)) = true) ∧
    (∀ (style : LofiStyle) (swing : ℚ) (measures : Nat) (r : DrumRand),
      durationsOk (drumNotes style swing measures 480 r) = true ∧
      wellPaired (pairEvents (drumNotes style swing measures 480 r)) = true) := by
  refine ⟨fun g prog measures jt jv hj => ?_, fun g prog measures jt jv hj => ?_,
    fun g prog measures => ?_, fun g prog measures gate dshift => ?_,
    fun g prog measures gate => ?_, fun g prog measures gate => ?_,
    fun g prog measures gate choose => ?_, fun style swing measures r => ?_⟩ <;>
    refine ⟨(durationsOk_iff _).mpr ?_, wellPaired_pairEvents _ ?_⟩
  · exact harmony_durations g prog measures jt jv hj
  · exact harmony_durations g prog measures jt jv hj
  · exact bass_durations g prog measures jt jv hj
  · exact bass_durations g prog measures jt jv hj
  · exact pad_durations g prog measures
  · exact pad_durations g prog measures
  · exact koto_durations g prog measures gate dshift
  · exact koto_durations g prog measures gate dshift
  · exact accordion_durations g prog measures gate
  · exact accordion_durations g prog measures gate
  · exact shakuhachi_durations g prog measures gate
  · exact shakuhachi_durations g prog measures gate
  · exact melody_durations g prog measures gate choose
  · exact melody_durations g prog measures gate choose
  · exact drum_durations style swing measures r
  · exact drum_durations style swing measures r

/-- Witness for C4: harmony with zero jitter and drums for chillhop,
two measures each, evaluated concretely. -/
theorem c4_witness :
    durationsOk (harmonyNotes genA (MELANCHOLIC_PROGRESSIONS.getD 0 []) 2 480
      (fun _ _ => 0) (fun _ _ => 0)) = true ∧
    wellPaired (pairEvents (harmonyNotes genA (MELANCHOLIC_PROGRESSIONS.getD 0 []) 2 480
      (fun _ _ => 0) (fun _ _ => 0))) = true ∧
    durationsOk (drumNotes .CHILLHOP (11 / 20) 2 480
      ⟨fun _ _ => 0, fun _ => true, fun _ => 0, fun _ => 0, fun _ _ => 0, fun _ => true,
       fun _ => true, fun _ => true, fun _ _ => 0, fun _ => true, fun _ _ => 0,
       fun _ _ => false⟩) = true := by
  have hj : ∀ m i : Nat, -40 ≤ (fun _ _ => (0 : Int)) m i ∧ (fun _ _ => (0 : Int)) m i ≤ 40 :=
    fun m i => ⟨by norm_num, by norm_num⟩
  have h1 := c4_on_off_pairing.1 genA (MELANCHOLIC_PROGRESSIONS.getD 0 []) 2
    (fun _ _ => 0) (fun _ _ => 0) hj
  have h2 := (c4_on_off_pairing.2.2.2.2.2.2.2 .CHILLHOP (11 / 20) 2
    ⟨fun _ _ => 0, fun _ => true, fun _ => 0, fun _ => 0, fun _ _ => 0, fun _ => true,
     fun _ => true, fun _ => true, fun _ _ => 0, fun _ => true, fun _ _ => 0,
     fun _ _ => false⟩).1
  exact ⟨h1.1, h1.2, h2⟩

end LofiCrafter
